import Mathlib

/-!
Verification of the message-indexing / navigation / search / bookmark services of the
ChatGPT message-jumper browser extension, against a shallow embedding of the
TypeScript sources.

DOM handles (`HTMLElement` references) and the scroll/highlight side effects carry no
state that the verified properties depend on, so they are dropped from the records;
everything else follows the source field by field.  JavaScript `number` values that
the code treats as integers are modelled as `Int` (or `Nat` where the source value is
an array length or list position).
-/

namespace ChatNav

/-! ### Types (src/unnamed/part_009, types.ts) -/

/-- `enum NavigationDirection { UP, DOWN }` -/
inductive NavigationDirection where
  | UP
  | DOWN
  deriving DecidableEq, Repr

/-- `enum MessageRole { USER, ASSISTANT, SYSTEM }` -/
inductive MessageRole where
  | USER
  | ASSISTANT
  | SYSTEM
  deriving DecidableEq, Repr

/-- `interface NavigationState` (the `element` of messages plays no role here). -/
structure NavigationState where
  currentIndex : Int
  direction : NavigationDirection
  totalMessages : Int
  enabled : Bool
  deriving DecidableEq, Repr

/-! ### Navigation service (src/src/services/navigationService.ts)

The service state starts as
`{ currentIndex: 0, direction: DOWN, totalMessages: 0, enabled: true }`.
`navigateNext` consults `messageService.getAssistantMessages().length`, which between
refreshes equals `state.totalMessages` (both `initialize` and `refresh` copy the scan
count into the state), so the emptiness guard is expressed on `totalMessages`. -/

/-- Initial value of `NavigationService.state`. -/
def NavigationState.initial : NavigationState :=
  { currentIndex := 0, direction := .DOWN, totalMessages := 0, enabled := true }

/-- `navigateDown()`: advance or flip direction at the end. -/
def navigateDown (s : NavigationState) : NavigationState :=
  if s.currentIndex < s.totalMessages - 1 then
    { s with currentIndex := s.currentIndex + 1 }
  else
    { s with direction := .UP, currentIndex := s.totalMessages - 1 }

/-- `navigateUp()`: retreat or flip direction at the beginning. -/
def navigateUp (s : NavigationState) : NavigationState :=
  if s.currentIndex > 0 then
    { s with currentIndex := s.currentIndex - 1 }
  else
    { s with direction := .DOWN, currentIndex := 0 }

/-- `navigateNext()`: no-op when disabled or when there are no messages; otherwise
dispatch on the direction.  The scroll/highlight side effect is dropped. -/
def navigateNext (s : NavigationState) : NavigationState :=
  if !s.enabled then s
  else if s.totalMessages = 0 then s
  else
    match s.direction with
    | .DOWN => navigateDown s
    | .UP => navigateUp s

/-- `jumpToMessage(index)`: silently ignore out-of-range indices. -/
def jumpToMessage (s : NavigationState) (index : Int) : NavigationState :=
  if index < 0 ∨ index ≥ s.totalMessages then s
  else { s with currentIndex := index }

/-- `refresh()`: adopt the fresh scan count (a list length, hence a `Nat`) and clamp
`currentIndex` to `Math.max(0, totalMessages - 1)` when it fell out of range. -/
def refresh (s : NavigationState) (newCount : Nat) : NavigationState :=
  let s' := { s with totalMessages := (newCount : Int) }
  if s'.currentIndex ≥ s'.totalMessages then
    { s' with currentIndex := max 0 (s'.totalMessages - 1) }
  else s'

/-- `setEnabled(enabled)`: pure flag toggle. -/
def setEnabled (s : NavigationState) (enabled : Bool) : NavigationState :=
  { s with enabled := enabled }

/-- One public operation of the navigation service. -/
inductive NavStep : NavigationState → NavigationState → Prop where
  | next (s : NavigationState) : NavStep s (navigateNext s)
  | jump (s : NavigationState) (i : Int) : NavStep s (jumpToMessage s i)
  | rescan (s : NavigationState) (n : Nat) : NavStep s (refresh s n)
  | toggle (s : NavigationState) (b : Bool) : NavStep s (setEnabled s b)

/-- States reachable from the initial navigation state by service operations. -/
inductive Reachable : NavigationState → Prop where
  | init : Reachable NavigationState.initial
  | step {s t : NavigationState} : Reachable s → NavStep s t → Reachable t

/-- The inductive invariant maintained by every operation. -/
def NavInv (s : NavigationState) : Prop :=
  0 ≤ s.totalMessages ∧ 0 ≤ s.currentIndex ∧ s.currentIndex < max s.totalMessages 1

/-! ### JavaScript string primitives

The built-in Lean `String` operations hide well-founded recursion, so the JS string
methods the services use — `trim()`, `toLowerCase()`, `split(/\s+/)` word counting —
are embedded as structurally recursive functions over `String.data`. -/

/-- Drop leading whitespace characters. -/
def jsTrimLeft : List Char → List Char
  | [] => []
  | c :: cs => if c.isWhitespace then jsTrimLeft cs else c :: cs

/-- JS `String.prototype.trim`: drop leading and trailing whitespace. -/
def jsTrim (s : String) : String :=
  ((jsTrimLeft (jsTrimLeft s.data).reverse).reverse).asString

/-- JS `String.prototype.toLowerCase` (character-wise lowering). -/
def jsToLower (s : String) : String :=
  (s.data.map Char.toLower).asString

/-- Number of maximal non-whitespace runs, scanning with an in-word flag. -/
def countWordsAux : List Char → Bool → Nat
  | [], _ => 0
  | c :: cs, inWord =>
    if c.isWhitespace then countWordsAux cs false
    else (if inWord then 0 else 1) + countWordsAux cs true

/-! ### Message service (src/unnamed/part_002, messageService.ts)

A matchable DOM element is represented by its rendered text (`innerText`):
`extractContent` returns that text trimmed in every branch (with or without a
`contentSelector`), so nothing else about the element is observable here. -/

/-- `interface Message` (the DOM `element` field is dropped). -/
structure Message where
  role : MessageRole
  content : String
  index : Nat
  characterCount : Nat
  wordCount : Nat
  deriving DecidableEq, Repr

/-- `extractContent(element)`: the element's rendered text, trimmed. -/
def extractContent (innerText : String) : String :=
  jsTrim innerText

/-- `content.split(/\s+/).filter((word) => word.length > 0).length`: the number of
non-empty whitespace-delimited tokens, i.e. of maximal non-whitespace runs. -/
def wordCountOf (content : String) : Nat :=
  countWordsAux content.data false

/-- `parseMessage(element, index)`: `null` when the extracted text is empty. -/
def parseMessage (innerText : String) (index : Nat) : Option Message :=
  let content := extractContent innerText
  if content = "" then none
  else
    some { role := .ASSISTANT, content := content, index := index,
           characterCount := content.length, wordCount := wordCountOf content }

/-- `scanMessages()`: `.map((element, index) => parseMessage(element, index))` over
the matched elements — the index is the position in the pre-filter element list —
followed by `.filter((msg) => msg !== null)`. -/
def scanMessages (elements : List String) : List Message :=
  (elements.enum.map fun p => parseMessage p.2 p.1).filterMap id

/-- `interface ConversationStats` -/
structure ConversationStats where
  totalMessages : Nat
  userMessages : Nat
  assistantMessages : Nat
  totalCharacters : Nat
  totalWords : Nat
  estimatedTokens : Nat
  deriving DecidableEq, Repr

/-- `getConversationStats()`: aggregates over `this.assistantMessages` (after a scan
`this.messages` is a copy of it, so `totalMessages` equals its length).  The token
estimate is `Math.ceil(totalCharacters / 4)` — written `(c + 3) / 4` on `Nat` — and
the function never consults the platform configuration. -/
def getConversationStats (assistantMessages : List Message) : ConversationStats :=
  let totalCharacters := assistantMessages.foldl (fun sum msg => sum + msg.characterCount) 0
  let totalWords := assistantMessages.foldl (fun sum msg => sum + msg.wordCount) 0
  let estimatedTokens := (totalCharacters + 3) / 4
  { totalMessages := assistantMessages.length,
    userMessages := 0,
    assistantMessages := assistantMessages.length,
    totalCharacters := totalCharacters,
    totalWords := totalWords,
    estimatedTokens := estimatedTokens }

/-! ### Search service (src/src/services/searchService.ts)

`countMatches` counts non-overlapping left-to-right occurrences, modelling
`text.match(new RegExp(escapeRegex(term), 'gi')).length` — `escapeRegex` makes the
pattern a literal string, and both arguments are already lowercased at the call
site.  The scan is written with step fuel (one unit per character position) to stay
structurally recursive; `text.length` units always suffice. -/

/-- `interface SearchResult` (the DOM `element` field is dropped; the source's
`matches` field is a reserved word in Lean, so it is spelled `matchCount`). -/
structure SearchResult where
  messageIndex : Nat
  matchCount : Nat
  preview : String
  deriving DecidableEq, Repr

/-- The private fields of `SearchService`. -/
structure SearchState where
  currentSearchTerm : String
  searchResults : List SearchResult
  currentResultIndex : Int
  isSearchActive : Bool
  deriving DecidableEq, Repr

/-- Initial field values of `SearchService`. -/
def SearchState.initial : SearchState :=
  { currentSearchTerm := "", searchResults := [], currentResultIndex := -1,
    isSearchActive := false }

/-- Whether `pattern` occurs at the head of `text`. -/
def listStartsWith : List Char → List Char → Bool
  | _, [] => true
  | [], _ :: _ => false
  | c :: cs, q :: qs => c == q && listStartsWith cs qs

/-- Non-overlapping occurrence count; on a match the scan skips the whole pattern. -/
def countOccurrencesAux (pattern : List Char) : Nat → List Char → Nat
  | 0, _ => 0
  | fuel + 1, text =>
    match text with
    | [] => 0
    | _ :: rest =>
      if listStartsWith text pattern then
        1 + countOccurrencesAux pattern fuel (text.drop pattern.length)
      else
        countOccurrencesAux pattern fuel rest

/-- `countMatches(text, term)`: `0` for the empty term, else the global match
count of the escaped (hence literal) term. -/
def countMatches (text term : String) : Nat :=
  if term = "" then 0
  else countOccurrencesAux term.data text.data.length text.data

/-- JS `String.prototype.indexOf` restricted to what `generatePreview` needs:
`some i` for the first occurrence, `none` for JS's `-1`. -/
def jsIndexOf : List Char → List Char → Option Nat
  | _, [] => some 0
  | [], _ :: _ => none
  | c :: rest, q :: qs =>
    if listStartsWith (c :: rest) (q :: qs) then some 0
    else (jsIndexOf rest (q :: qs)).map (· + 1)

/-- `generatePreview(content, searchTerm, contextLength)` (callers use the default
`contextLength = 50`): a window of original-case text around the first
case-insensitive match, with `...` markers where truncated.  `Math.max(0, ...)` is
`Nat` subtraction. -/
def generatePreview (content searchTerm : String) (contextLength : Nat) : String :=
  let lowerContent := jsToLower content
  let lowerTerm := jsToLower searchTerm
  match jsIndexOf lowerContent.data lowerTerm.data with
  | none => ""
  | some index =>
    let start := index - contextLength
    let stop := min content.length (index + searchTerm.length + contextLength)
    let preview := ((content.data.drop start).take (stop - start)).asString
    let preview := if start > 0 then "..." ++ preview else preview
    let preview := if stop < content.length then preview ++ "..." else preview
    preview

/-- `search(searchTerm)`: reset term, results and cursor, bail out on a
whitespace-only term, collect a result per message with at least one match
(`forEach`/`push` rendered as `filterMap`), then put the cursor on the first result
when any exist.  Returns the mutated service state and the returned list. -/
def search (messages : List Message) (searchTerm : String) (st : SearchState) :
    SearchState × List SearchResult :=
  let st := { st with currentSearchTerm := jsToLower searchTerm,
                      searchResults := [], currentResultIndex := -1 }
  if jsTrim searchTerm = "" then (st, [])
  else
    let searchResults := messages.filterMap fun message =>
      let content := jsToLower message.content
      let matchCount := countMatches content st.currentSearchTerm
      if matchCount > 0 then
        some { messageIndex := message.index, matchCount := matchCount,
               preview := generatePreview message.content searchTerm 50 }
      else none
    let st := { st with searchResults := searchResults }
    let st := if searchResults.length > 0 then { st with currentResultIndex := 0 } else st
    (st, searchResults)

/-- `nextResult()`: `(currentResultIndex + 1) % length`; JS `%` is the truncated
remainder, `Int.tmod`. -/
def nextResult (st : SearchState) : SearchState :=
  if st.searchResults.length = 0 then st
  else { st with currentResultIndex :=
          Int.tmod (st.currentResultIndex + 1) st.searchResults.length }

/-- `previousResult()`: `(currentResultIndex - 1 + length) % length`. -/
def previousResult (st : SearchState) : SearchState :=
  if st.searchResults.length = 0 then st
  else { st with currentResultIndex := Int.tmod (st.currentResultIndex - 1 + st.searchResults.length) st.searchResults.length }

/-- The record returned by `getSearchStats()`. -/
structure SearchStats where
  totalResults : Nat
  currentIndex : Int
  totalMatches : Nat
  deriving DecidableEq, Repr

/-- `getSearchStats()`: note `currentIndex` is `Math.max(1, currentResultIndex + 1)`. -/
def getSearchStats (st : SearchState) : SearchStats :=
  let totalMatches := st.searchResults.foldl (fun sum result => sum + result.matchCount) 0
  { totalResults := st.searchResults.length,
    currentIndex := max 1 (st.currentResultIndex + 1),
    totalMatches := totalMatches }

/-- A concrete scanned message used to instantiate search theorems. -/
def demoMessage : Message :=
  { role := .ASSISTANT, content := "Hello", index := 0, characterCount := 5,
    wordCount := 1 }

/-- A concrete two-result search state used to instantiate cursor theorems. -/
def demoSearchState : SearchState :=
  { currentSearchTerm := "a",
    searchResults := [{ messageIndex := 0, matchCount := 1, preview := "" },
                      { messageIndex := 2, matchCount := 1, preview := "" }],
    currentResultIndex := 0, isSearchActive := true }

/-! ### Bookmark service (src/unnamed/part_004, bookmarkService.ts)

`this.bookmarks` is a JS `Map<number, Bookmark>`, embedded as an insertion-ordered
association list: `Map.set` replaces the value in place when the key is present and
appends otherwise, so key lists stay duplicate-free.  `importBookmarks` is modelled
from its already-parsed payload — the JSON parsing and the throw on a non-array
payload are upstream of the merge this claim is about. -/

/-- `interface Bookmark`. -/
structure Bookmark where
  messageIndex : Int
  tag : String
  note : String
  timestamp : Int
  platform : String
  conversationId : Option String
  deriving DecidableEq, Repr

/-- JS `Map.prototype.set`: replace in place or append. -/
def mapSet : List (Int × Bookmark) → Int → Bookmark → List (Int × Bookmark)
  | [], key, value => [(key, value)]
  | (k, v) :: rest, key, value =>
    if k = key then (key, value) :: rest
    else (k, v) :: mapSet rest key value

/-- JS `Map.prototype.get` (`none` for `undefined`). -/
def mapGet : List (Int × Bookmark) → Int → Option Bookmark
  | [], _ => none
  | (k, v) :: rest, key => if k = key then some v else mapGet rest key

/-- `importBookmarks(jsonData)` after parsing: `bookmarks.forEach((bookmark) =>
this.bookmarks.set(bookmark.messageIndex, bookmark))`. -/
def importBookmarks (imported : List Bookmark) (bookmarks : List (Int × Bookmark)) :
    List (Int × Bookmark) :=
  imported.foldl (fun m b => mapSet m b.messageIndex b) bookmarks

/-- The `Map` representation invariant: each key occurs at most once. -/
def keysNodup (m : List (Int × Bookmark)) : Prop :=
  (m.map Prod.fst).Nodup

/-- Number of stored entries whose key is `k`. -/
def countKey (m : List (Int × Bookmark)) (k : Int) : Nat :=
  m.countP fun p => p.1 = k

/-- The last record of `imported` carrying key `k`, if any — the record that
last-write-wins semantics must leave at `k`. -/
def findLastKey : List Bookmark → Int → Option Bookmark
  | [], _ => none
  | b :: bs, k =>
    match findLastKey bs k with
    | some r => some r
    | none => if b.messageIndex = k then some b else none

/-- The pre-existing annotation at position 3 in the witness store. -/
def oldBookmark : Bookmark :=
  { messageIndex := 3, tag := "old", note := "keep?", timestamp := 100,
    platform := "chatgpt", conversationId := none }

/-- A pre-existing annotation at another position, which the import must keep. -/
def otherBookmark : Bookmark :=
  { messageIndex := 7, tag := "other", note := "", timestamp := 150,
    platform := "chatgpt", conversationId := some "c1" }

/-- The imported annotation colliding at position 3. -/
def newBookmark : Bookmark :=
  { messageIndex := 3, tag := "new", note := "imported", timestamp := 200,
    platform := "claude", conversationId := none }

/-! ### Theorems -/

theorem navInv_initial : NavInv NavigationState.initial := by
  simp [NavInv, NavigationState.initial]

theorem navInv_navigateDown {s : NavigationState} (h : NavInv s)
    (hn : s.totalMessages ≠ 0) : NavInv (navigateDown s) := by
  obtain ⟨ht, h0, hlt⟩ := h
  unfold navigateDown
  split <;> refine ⟨by simpa using ht, ?_, ?_⟩ <;> simp only <;> omega

theorem navInv_navigateUp {s : NavigationState} (h : NavInv s) :
    NavInv (navigateUp s) := by
  obtain ⟨ht, h0, hlt⟩ := h
  unfold navigateUp
  split <;> refine ⟨by simpa using ht, ?_, ?_⟩ <;> simp only <;> omega

theorem navInv_navigateNext {s : NavigationState} (h : NavInv s) :
    NavInv (navigateNext s) := by
  unfold navigateNext
  split
  · exact h
  · split
    · exact h
    · rename_i hn
      cases hdir : s.direction
      · exact navInv_navigateUp h
      · exact navInv_navigateDown h hn

theorem navInv_jumpToMessage {s : NavigationState} (h : NavInv s) (i : Int) :
    NavInv (jumpToMessage s i) := by
  obtain ⟨ht, h0, hlt⟩ := h
  unfold jumpToMessage
  split
  · exact ⟨ht, h0, hlt⟩
  · rename_i hin
    push_neg at hin
    refine ⟨by simpa using ht, ?_, ?_⟩ <;> simp only <;> omega

theorem navInv_refresh {s : NavigationState} (h : NavInv s) (n : Nat) :
    NavInv (refresh s n) := by
  obtain ⟨ht, h0, hlt⟩ := h
  simp only [refresh]
  split <;> refine ⟨?_, ?_, ?_⟩ <;> simp only <;> omega

theorem navInv_setEnabled {s : NavigationState} (h : NavInv s) (b : Bool) :
    NavInv (setEnabled s b) := h

theorem navInv_reachable {s : NavigationState} (h : Reachable s) : NavInv s := by
  induction h with
  | init => exact navInv_initial
  | step _ hstep ih =>
    cases hstep with
    | next => exact navInv_navigateNext ih
    | jump i => exact navInv_jumpToMessage ih i
    | rescan n => exact navInv_refresh ih n
    | toggle b => exact navInv_setEnabled ih b

/-- C1: every navigation state reachable from the initial state by any sequence of
`navigateNext`, `jumpToMessage`, `refresh` (and `setEnabled`) operations satisfies
`0 ≤ currentIndex < max(totalMessages, 1)`; moreover, whenever `totalMessages = 0`,
the current index is pinned at `0` and both movement operations are no-ops. -/
theorem nav_reachable_invariant (s : NavigationState) (h : Reachable s) :
    (0 ≤ s.currentIndex ∧ s.currentIndex < max s.totalMessages 1) ∧
    (s.totalMessages = 0 →
      s.currentIndex = 0 ∧ navigateNext s = s ∧ ∀ i : Int, jumpToMessage s i = s) := by
  obtain ⟨ht, h0, hlt⟩ := navInv_reachable h
  refine ⟨⟨h0, hlt⟩, fun hz => ⟨?_, ?_, ?_⟩⟩
  · omega
  · unfold navigateNext
    split
    · rfl
    · simp [hz]
  · intro i
    unfold jumpToMessage
    rw [hz]
    split
    · rfl
    · omega

theorem nav_reachable_invariant_witness :
    (0 ≤ NavigationState.initial.currentIndex ∧
      NavigationState.initial.currentIndex < max NavigationState.initial.totalMessages 1) ∧
    (NavigationState.initial.totalMessages = 0 →
      NavigationState.initial.currentIndex = 0 ∧
      navigateNext NavigationState.initial = NavigationState.initial ∧
      ∀ i : Int, jumpToMessage NavigationState.initial i = NavigationState.initial) :=
  nav_reachable_invariant NavigationState.initial Reachable.init

/-- C4: with `totalMessages = N > 1`, one `navigateNext` call from
`(currentIndex = N-1, direction = DOWN, enabled = true)` flips the direction to `UP`
and leaves the index at `N-1`: the boundary reversal happens in the same call. -/
theorem nav_boundary_reversal (N : Int) (hN : 1 < N) :
    (navigateNext
        { currentIndex := N - 1, direction := .DOWN, totalMessages := N,
          enabled := true }).direction = .UP ∧
    (navigateNext
        { currentIndex := N - 1, direction := .DOWN, totalMessages := N,
          enabled := true }).currentIndex = N - 1 := by
  have hz : N ≠ 0 := by omega
  unfold navigateNext navigateDown
  simp [hz]

theorem nav_boundary_reversal_witness :
    (navigateNext
        { currentIndex := (3 : Int) - 1, direction := .DOWN, totalMessages := 3,
          enabled := true }).direction = .UP ∧
    (navigateNext
        { currentIndex := (3 : Int) - 1, direction := .DOWN, totalMessages := 3,
          enabled := true }).currentIndex = (3 : Int) - 1 :=
  nav_boundary_reversal 3 (by norm_num)

/-- C5: when `enabled = false`, `navigateNext` leaves the whole state (in particular
`currentIndex` and `direction`) unchanged, while `jumpToMessage` with any in-range
index still moves `currentIndex` there — it never consults the `enabled` flag. -/
theorem nav_disabled_asymmetry (s : NavigationState) (i : Int) :
    (s.enabled = false → navigateNext s = s) ∧
    (0 ≤ i → i < s.totalMessages → (jumpToMessage s i).currentIndex = i) := by
  constructor
  · intro hdis
    unfold navigateNext
    simp [hdis]
  · intro h0 hlt
    unfold jumpToMessage
    split
    · omega
    · rfl

theorem nav_disabled_asymmetry_witness :
    (navigateNext
        { currentIndex := 0, direction := .DOWN, totalMessages := 1,
          enabled := false } =
      { currentIndex := 0, direction := .DOWN, totalMessages := 1,
        enabled := false }) ∧
    (jumpToMessage
        { currentIndex := 0, direction := .DOWN, totalMessages := 1,
          enabled := false } 0).currentIndex = 0 :=
  ⟨(nav_disabled_asymmetry _ 0).1 rfl,
   (nav_disabled_asymmetry _ 0).2 (by norm_num) (by norm_num)⟩

/-- C6: `jumpToMessage` with an out-of-range index is a silent no-op leaving the
whole state (in particular `currentIndex`) unchanged; in particular both
`jumpToMessage s (-1)` and `jumpToMessage s totalMessages` change nothing. -/
theorem jumpToMessage_out_of_range (s : NavigationState) (i : Int) :
    (i < 0 ∨ i ≥ s.totalMessages → jumpToMessage s i = s) ∧
    jumpToMessage s (-1) = s ∧
    jumpToMessage s s.totalMessages = s := by
  have noop : ∀ j : Int, j < 0 ∨ j ≥ s.totalMessages → jumpToMessage s j = s := by
    intro j hj
    unfold jumpToMessage
    split
    · rfl
    · omega
  exact ⟨noop i, noop (-1) (Or.inl (by norm_num)), noop s.totalMessages (Or.inr le_rfl)⟩

theorem jumpToMessage_out_of_range_witness :
    jumpToMessage
        { currentIndex := 1, direction := .DOWN, totalMessages := 3,
          enabled := true } 3 =
      { currentIndex := 1, direction := .DOWN, totalMessages := 3, enabled := true } :=
  (jumpToMessage_out_of_range _ 3).1 (Or.inr (by norm_num))

/-- C2 counterexample: two matchable elements, the first whitespace-only.  The scan
yields the expected single record, but its `index` is `1`, not a dense `0`: the
filtered-out element consumed a position index. -/
theorem scanMessages_not_dense :
    scanMessages ["   ", "hi"] =
      [{ role := .ASSISTANT, content := "hi", index := 1, characterCount := 2,
         wordCount := 1 }] ∧
    (scanMessages ["   ", "hi"]).map Message.index ≠ [0] := by
  constructor
  · rfl
  · decide

theorem scan_enumFrom (n : Nat) (elements : List String) :
    ((((elements.enumFrom n).map fun p => parseMessage p.2 p.1).filterMap id).map
        fun m => (m.index, m.content)) =
      (((elements.enumFrom n).filter fun p => jsTrim p.2 ≠ "").map
        fun p => (p.1, jsTrim p.2)) ∧
    (((elements.enumFrom n).map fun p => parseMessage p.2 p.1).filterMap id).length =
      elements.length - elements.countP fun e => jsTrim e == "" := by
  induction elements generalizing n with
  | nil => simp
  | cons e es ih =>
    have hcount := List.countP_le_length (p := fun e => jsTrim e == "") (l := es)
    obtain ⟨ih1, ih2⟩ := ih (n + 1)
    by_cases he : jsTrim e = ""
    · constructor
      · simpa [List.enumFrom, parseMessage, extractContent, he] using ih1
      · simp [List.enumFrom, parseMessage, extractContent, he, List.countP_cons] at ih2 ⊢
        omega
    · constructor
      · simpa [List.enumFrom, parseMessage, extractContent, he] using ih1
      · simp [List.enumFrom, parseMessage, extractContent, he, List.countP_cons] at ih2 ⊢
        omega

/-- C2 amended: a scan over `N` matchable elements of which `K` have whitespace-only
extracted text yields exactly `N - K` Message records, but their `index` fields are
the zero-based positions of their elements among all `N` matched elements
(filtered-out elements DO consume a position index), not dense indices
`0..N-K-1`. -/
theorem scanMessages_characterization (elements : List String) :
    (scanMessages elements).length =
      elements.length - elements.countP (fun e => jsTrim e == "") ∧
    (scanMessages elements).map (fun m => (m.index, m.content)) =
      ((elements.enum.filter fun p => jsTrim p.2 ≠ "").map fun p => (p.1, jsTrim p.2)) := by
  have h := scan_enumFrom 0 elements
  exact ⟨h.2, h.1⟩

theorem foldl_add_eq_sum (f : Message → Nat) (l : List Message) (a : Nat) :
    l.foldl (fun sum m => sum + f m) a = a + (l.map f).sum := by
  induction l generalizing a with
  | nil => simp
  | cons m ms ih => simp [ih]; omega

/-- C8: `getConversationStats` reports `totalCharacters` as the sum of the
`characterCount` of all assistant messages, and `estimatedTokens` is exactly
`ceil(totalCharacters / 4)` (characterized by `c ≤ 4t < c + 4`), with no platform
input; two messages of 5 and 7 characters yield `estimatedTokens = 3`. -/
theorem getConversationStats_estimatedTokens (msgs : List Message) :
    (getConversationStats msgs).totalCharacters = (msgs.map Message.characterCount).sum ∧
    (getConversationStats msgs).totalCharacters ≤
      4 * (getConversationStats msgs).estimatedTokens ∧
    4 * (getConversationStats msgs).estimatedTokens <
      (getConversationStats msgs).totalCharacters + 4 ∧
    (getConversationStats
        [{ role := .ASSISTANT, content := "aaaaa", index := 0, characterCount := 5,
           wordCount := 1 },
         { role := .ASSISTANT, content := "bbbbbbb", index := 1, characterCount := 7,
           wordCount := 1 }]).estimatedTokens = 3 := by
  refine ⟨?_, ?_, ?_, rfl⟩
  · simpa [getConversationStats] using foldl_add_eq_sum Message.characterCount msgs 0
  · simp only [getConversationStats]
    omega
  · simp only [getConversationStats]
    omega

/-- C3 counterexample: after a search with no results the cursor is `-1` and
`getSearchStats` reports `currentIndex = 1`, not the claimed `0`. -/
theorem getSearchStats_no_results_is_one :
    (getSearchStats (search [] "hello" SearchState.initial).1).totalResults = 0 ∧
    (getSearchStats (search [] "hello" SearchState.initial).1).currentIndex = 1 ∧
    (getSearchStats (search [] "hello" SearchState.initial).1).currentIndex ≠ 0 := by
  refine ⟨rfl, rfl, by decide⟩

/-- C3 amended: `getSearchStats` reports `currentIndex` as the 1-based cursor
position whenever the cursor is on a result (`currentResultIndex ≥ 0`), but reports
`1` — not `0` — when there is no current result (`currentResultIndex = -1`). -/
theorem getSearchStats_currentIndex (st : SearchState) :
    (0 ≤ st.currentResultIndex →
      (getSearchStats st).currentIndex = st.currentResultIndex + 1) ∧
    (st.currentResultIndex = -1 → (getSearchStats st).currentIndex = 1) := by
  constructor
  · intro h
    simp only [getSearchStats]
    omega
  · intro h
    simp only [getSearchStats, h]
    omega

theorem getSearchStats_currentIndex_witness :
    (getSearchStats
        { currentSearchTerm := "q",
          searchResults := [{ messageIndex := 0, matchCount := 1, preview := "" }],
          currentResultIndex := 0, isSearchActive := true }).currentIndex = 0 + 1 ∧
    (getSearchStats SearchState.initial).currentIndex = 1 :=
  ⟨(getSearchStats_currentIndex _).1 (by norm_num),
   (getSearchStats_currentIndex _).2 rfl⟩

theorem tmod_eq_emod_of_nonneg : ∀ (a : Int), 0 ≤ a → ∀ b : Int, a.tmod b = a % b
  | Int.ofNat _, _, Int.ofNat _ => rfl
  | Int.ofNat _, _, Int.negSucc _ => rfl
  | Int.negSucc _, h, _ => absurd h (by simp)

theorem emod_succ_emod (a n : Int) : (a % n + 1) % n = (a + 1) % n := by
  conv_rhs => rw [Int.add_emod]
  conv_lhs => rw [Int.add_emod, Int.emod_emod_of_dvd _ dvd_rfl]

theorem nextResult_mk (t : String) (rs : List SearchResult) (i : Int) (a : Bool)
    (h : ¬ rs.length = 0) :
    nextResult ⟨t, rs, i, a⟩ = ⟨t, rs, Int.tmod (i + 1) rs.length, a⟩ := by
  simp [nextResult, h]

theorem previousResult_mk (t : String) (rs : List SearchResult) (i : Int) (a : Bool)
    (h : ¬ rs.length = 0) :
    previousResult ⟨t, rs, i, a⟩ =
      ⟨t, rs, Int.tmod (i - 1 + rs.length) rs.length, a⟩ := by
  simp [previousResult, h]

theorem nextResult_iterate (t : String) (rs : List SearchResult) (i : Int) (a : Bool)
    (hne : rs ≠ []) (h0 : 0 ≤ i) (hlt : i < rs.length) (k : Nat) :
    nextResult^[k] (⟨t, rs, i, a⟩ : SearchState) =
      ⟨t, rs, (i + k) % (rs.length : Int), a⟩ := by
  have hlen : (rs.length : Int) ≠ 0 := by
    have := List.length_pos.mpr hne
    omega
  induction k with
  | zero =>
    simp [Int.emod_eq_of_lt h0 hlt]
  | succ k ih =>
    rw [Function.iterate_succ_apply', ih, nextResult_mk _ _ _ _ (by omega)]
    have hmodnn : 0 ≤ (i + k) % (rs.length : Int) := Int.emod_nonneg _ hlen
    have harith : Int.tmod ((i + k) % (rs.length : Int) + 1) rs.length =
        (i + ((k + 1 : Nat) : Int)) % (rs.length : Int) := by
      rw [tmod_eq_emod_of_nonneg _ (by omega), emod_succ_emod]
      congr 1
      push_cast
      ring
    rw [harith]

/-- C7: with a non-empty result list and the cursor in range, `previousResult` from
the first result lands on the last, `nextResult` from the last wraps to the first,
and iterating `nextResult` exactly `totalResults` times restores the state. -/
theorem searchCursor_wraparound (st : SearchState) (hne : st.searchResults ≠ [])
    (h0 : 0 ≤ st.currentResultIndex)
    (hlt : st.currentResultIndex < st.searchResults.length) :
    (st.currentResultIndex = 0 →
      (previousResult st).currentResultIndex = st.searchResults.length - 1) ∧
    (st.currentResultIndex = st.searchResults.length - 1 →
      (nextResult st).currentResultIndex = 0) ∧
    nextResult^[st.searchResults.length] st = st := by
  obtain ⟨t, rs, i, a⟩ := st
  dsimp only at hne h0 hlt ⊢
  have hpos : 0 < rs.length := List.length_pos.mpr hne
  refine ⟨?_, ?_, ?_⟩
  · intro hfirst
    have harith : Int.tmod (i - 1 + (rs.length : Int)) (rs.length : Int) =
        (rs.length : Int) - 1 := by
      rw [hfirst, tmod_eq_emod_of_nonneg _ (by omega),
        Int.emod_eq_of_lt (by omega) (by omega)]
      omega
    rw [previousResult_mk _ _ _ _ (by omega), harith]
  · intro hlast
    have harith : Int.tmod (i + 1) (rs.length : Int) = 0 := by
      rw [hlast, show ((rs.length : Int) - 1 + 1) = (rs.length : Int) by ring,
        tmod_eq_emod_of_nonneg _ (by omega), Int.emod_self]
    rw [nextResult_mk _ _ _ _ (by omega), harith]
  · rw [nextResult_iterate t rs i a hne h0 hlt]
    have harith : (i + (rs.length : Int)) % (rs.length : Int) = i := by
      rw [show i + (rs.length : Int) = i + (rs.length : Int) * 1 by ring,
        Int.add_mul_emod_self_left, Int.emod_eq_of_lt h0 hlt]
    rw [harith]

theorem searchCursor_wraparound_witness :
    (previousResult demoSearchState).currentResultIndex =
      demoSearchState.searchResults.length - 1 ∧
    nextResult^[demoSearchState.searchResults.length] demoSearchState =
      demoSearchState := by
  refine ⟨(searchCursor_wraparound demoSearchState (by decide) (by decide)
    (by decide)).1 rfl, (searchCursor_wraparound demoSearchState (by decide)
    (by decide) (by decide)).2.2⟩

/-- C10: a `search` call leaves the cursor on the first result whenever the result
list is non-empty, stores exactly the returned results, and its resulting results
and cursor are independent of the previous state — no prior cursor or result list
carries over. -/
theorem search_resets_state (messages : List Message) (term : String)
    (st st' : SearchState) :
    ((search messages term st).2 ≠ [] →
      (search messages term st).1.currentResultIndex = 0) ∧
    (search messages term st).1.searchResults = (search messages term st).2 ∧
    (search messages term st).1.searchResults =
      (search messages term st').1.searchResults ∧
    (search messages term st).1.currentResultIndex =
      (search messages term st').1.currentResultIndex := by
  by_cases htrim : jsTrim term = ""
  · simp [search, htrim]
  · simp only [search, htrim, if_false]
    refine ⟨?_, ?_, ?_, ?_⟩ <;> split <;> simp_all

theorem search_resets_state_witness :
    (search [demoMessage] "ell" SearchState.initial).1.currentResultIndex = 0 ∧
    (search [demoMessage] "ell" demoSearchState).1.searchResults =
      (search [demoMessage] "ell" SearchState.initial).1.searchResults :=
  ⟨(search_resets_state [demoMessage] "ell" SearchState.initial
      SearchState.initial).1 (by decide),
   (search_resets_state [demoMessage] "ell" demoSearchState
      SearchState.initial).2.2.1⟩

theorem mapGet_mapSet_self (m : List (Int × Bookmark)) (k : Int) (v : Bookmark) :
    mapGet (mapSet m k v) k = some v := by
  induction m with
  | nil => simp [mapSet, mapGet]
  | cons p rest ih =>
    obtain ⟨pk, pv⟩ := p
    by_cases h : pk = k
    · simp [mapSet, mapGet, h]
    · simp [mapSet, mapGet, h, ih]

theorem mapGet_mapSet_ne (m : List (Int × Bookmark)) (k k' : Int) (v : Bookmark)
    (h : k' ≠ k) : mapGet (mapSet m k v) k' = mapGet m k' := by
  have h' : ¬ k = k' := fun hh => h hh.symm
  induction m with
  | nil => simp [mapSet, mapGet, h']
  | cons p rest ih =>
    obtain ⟨pk, pv⟩ := p
    by_cases hpk : pk = k
    · subst hpk
      simp [mapSet, mapGet, h']
    · by_cases hpk' : pk = k'
      · simp [mapSet, mapGet, hpk, hpk', h]
      · simp [mapSet, mapGet, hpk, hpk', ih]

theorem mem_keys_mapSet (m : List (Int × Bookmark)) (k : Int) (v : Bookmark)
    (k' : Int) (h : k' ∈ (mapSet m k v).map Prod.fst) :
    k' = k ∨ k' ∈ m.map Prod.fst := by
  induction m with
  | nil =>
    simp [mapSet] at h
    exact Or.inl h
  | cons p rest ih =>
    obtain ⟨pk, pv⟩ := p
    by_cases hpk : pk = k
    · simp [mapSet, hpk] at h
      rcases h with h | h
      · exact Or.inl h
      · exact Or.inr (by simp [h])
    · simp [mapSet, hpk] at h
      rcases h with h | h
      · exact Or.inr (by simp [h])
      · rcases ih (by simpa using h) with h' | h'
        · exact Or.inl h'
        · exact Or.inr (by simp [h'])

theorem keysNodup_mapSet (m : List (Int × Bookmark)) (k : Int) (v : Bookmark)
    (h : keysNodup m) : keysNodup (mapSet m k v) := by
  induction m with
  | nil => simp [mapSet, keysNodup]
  | cons p rest ih =>
    obtain ⟨pk, pv⟩ := p
    simp only [keysNodup, List.map_cons, List.nodup_cons] at h
    obtain ⟨hpk_notmem, hrest⟩ := h
    by_cases hpk : pk = k
    · subst hpk
      have hgoal : keysNodup ((pk, v) :: rest) := by
        simp only [keysNodup, List.map_cons, List.nodup_cons]
        exact ⟨hpk_notmem, hrest⟩
      simpa [mapSet] using hgoal
    · have ihrest : keysNodup (mapSet rest k v) := ih hrest
      have hnotmem : pk ∉ (mapSet rest k v).map Prod.fst := by
        intro hmem
        rcases mem_keys_mapSet rest k v pk hmem with h' | h'
        · exact hpk h'
        · exact hpk_notmem h'
      have hgoal : keysNodup ((pk, pv) :: mapSet rest k v) := by
        simp only [keysNodup, List.map_cons, List.nodup_cons]
        exact ⟨hnotmem, ihrest⟩
      simpa [mapSet, hpk] using hgoal

theorem countP_eq_zero_of_not_mem_keys (m : List (Int × Bookmark)) (k : Int)
    (h : k ∉ m.map Prod.fst) : countKey m k = 0 := by
  induction m with
  | nil => simp [countKey]
  | cons p rest ih =>
    obtain ⟨pk, pv⟩ := p
    simp only [List.map_cons, List.mem_cons, not_or] at h
    obtain ⟨hne, hrest⟩ := h
    have hne' : ¬ pk = k := fun hh => hne hh.symm
    have := ih hrest
    simp only [countKey, List.countP_cons] at this ⊢
    simp [this, hne']

theorem countKey_mapSet_self (m : List (Int × Bookmark)) (k : Int) (v : Bookmark)
    (h : keysNodup m) : countKey (mapSet m k v) k = 1 := by
  induction m with
  | nil => simp [mapSet, countKey]
  | cons p rest ih =>
    obtain ⟨pk, pv⟩ := p
    simp only [keysNodup, List.map_cons, List.nodup_cons] at h
    obtain ⟨hpk_notmem, hrest⟩ := h
    by_cases hpk : pk = k
    · subst hpk
      have hz := countP_eq_zero_of_not_mem_keys rest pk hpk_notmem
      simp only [countKey, List.countP_cons] at hz ⊢
      simp [mapSet, List.countP_cons, hz]
    · have := ih hrest
      simp only [countKey] at this ⊢
      simp [mapSet, hpk, List.countP_cons, this]

theorem countKey_mapSet_ne (m : List (Int × Bookmark)) (k k' : Int) (v : Bookmark)
    (h : k' ≠ k) : countKey (mapSet m k v) k' = countKey m k' := by
  have h' : ¬ k = k' := fun hh => h hh.symm
  induction m with
  | nil => simp [mapSet, countKey, h']
  | cons p rest ih =>
    obtain ⟨pk, pv⟩ := p
    by_cases hpk : pk = k
    · subst hpk
      simp [mapSet, countKey, List.countP_cons]
    · simp only [countKey] at ih ⊢
      simp [mapSet, hpk, List.countP_cons, ih]

/-- C9: `importBookmarks` merges by `messageIndex` with last-write-wins semantics:
for any store whose keys are duplicate-free, after the import each key that some
imported record carries maps to the last such record and is held by exactly one
stored entry, while every other key keeps exactly the entry (and count) it had
before — the import is a merge, not a replacement. -/
theorem importBookmarks_merge (store : List (Int × Bookmark))
    (imported : List Bookmark) (h : keysNodup store) (k : Int) :
    keysNodup (importBookmarks imported store) ∧
    (match findLastKey imported k with
     | some b =>
        mapGet (importBookmarks imported store) k = some b ∧
        countKey (importBookmarks imported store) k = 1
     | none =>
        mapGet (importBookmarks imported store) k = mapGet store k ∧
        countKey (importBookmarks imported store) k = countKey store k) := by
  induction imported generalizing store with
  | nil => simpa [importBookmarks, findLastKey] using h
  | cons b bs ih =>
    have hstep : keysNodup (mapSet store b.messageIndex b) := keysNodup_mapSet _ _ _ h
    have hrec := ih (mapSet store b.messageIndex b) hstep
    have himp : importBookmarks (b :: bs) store =
        importBookmarks bs (mapSet store b.messageIndex b) := rfl
    refine ⟨himp ▸ hrec.1, ?_⟩
    have htail := hrec.2
    cases hfind : findLastKey bs k with
    | some r =>
      simp only [findLastKey, hfind]
      rw [hfind] at htail
      exact himp ▸ htail
    | none =>
      rw [hfind] at htail
      by_cases hbk : b.messageIndex = k
      · simp only [findLastKey, hfind, hbk, if_pos]
        subst hbk
        refine ⟨?_, ?_⟩
        · rw [himp, htail.1, mapGet_mapSet_self]
        · rw [himp, htail.2, countKey_mapSet_self _ _ _ h]
      · simp only [findLastKey, hfind, hbk, if_neg]
        refine ⟨?_, ?_⟩
        · rw [himp, htail.1, mapGet_mapSet_ne _ _ _ _ (fun hh => hbk hh.symm)]
        · rw [himp, htail.2, countKey_mapSet_ne _ _ _ _ (fun hh => hbk hh.symm)]

theorem importBookmarks_merge_witness :
    mapGet (importBookmarks [newBookmark] [(3, oldBookmark), (7, otherBookmark)]) 3 =
      some newBookmark ∧
    countKey (importBookmarks [newBookmark] [(3, oldBookmark), (7, otherBookmark)]) 3 = 1 ∧
    mapGet (importBookmarks [newBookmark] [(3, oldBookmark), (7, otherBookmark)]) 7 =
      some otherBookmark := by
  have h3 := (importBookmarks_merge [(3, oldBookmark), (7, otherBookmark)]
    [newBookmark] (by simp [keysNodup]) 3).2
  have h7 := (importBookmarks_merge [(3, oldBookmark), (7, otherBookmark)]
    [newBookmark] (by simp [keysNodup]) 7).2
  exact ⟨h3.1, h3.2, by simpa [mapGet, oldBookmark, otherBookmark] using h7.1⟩

end ChatNav

